import Mathlib

/-!
Verification of the admin-bff authorization and audit core.

Shallow embedding of:
  * `src/utils/sanitizer.ts` (`sanitizePayload`, `removeCircularReferences`)
  * `src/services/log-queue.ts` (`LogQueue.processQueue`, `writeLogToDatabase`,
    `LogCleanupService.deleteOldLogs`, `ActivityLogger.logSync` / `logAsync` /
    `sanitizeLogData` / `isCriticalAction`)
  * `src/services/user-registry.ts` (`hasModuleAccess`, `setUserPermission`,
    `removeUserPermission`)

JS dynamic values are modelled as a tagged tree `Json`; reference graphs
(needed for the circular-reference pass, where identity matters) are modelled
by an explicit heap `List HNode` with addresses.  Machine integers do not
overflow in any modelled computation, so `Int`/`Nat` are used directly.
-/

/-- JS string `s.includes(sub)` on character lists: `sub` is a prefix of `l`. -/
def isPrefixL : List Char → List Char → Bool
  | [], _ => true
  | _ :: _, [] => false
  | a :: as, b :: bs => a == b && isPrefixL as bs

/-- JS string `includes`: `sub` occurs contiguously inside `l` (it is a
prefix of some suffix of `l`). -/
def infixOf (sub : List Char) : List Char → Bool
  | [] => isPrefixL sub []
  | c :: rest => isPrefixL sub (c :: rest) || infixOf sub rest

/-- Model of JS `s.includes(sub)`. -/
def strIncludes (s sub : String) : Bool :=
  infixOf sub.data s.data

/-- Tagged tree of JS values (acyclic view, used by the payload sanitizer). -/
inductive Json where
  | null : Json
  | bool (b : Bool) : Json
  | num (n : Int) : Json
  | str (s : String) : Json
  | arr (items : List Json) : Json
  | obj (fields : List (String × Json)) : Json

/-- JS truthiness of a value (`null`, `false`, `0`, `""` are falsy; every
object/array is truthy). -/
def jsTruthy : Json → Bool
  | .null => false
  | .bool b => b
  | .num n => n != 0
  | .str s => s != ""
  | .arr _ => true
  | .obj _ => true

/-- Model of `typeof value === 'object' && value` in the sanitizer's recursion test:
true exactly for arrays and plain objects (JS `null` is falsy). -/
def isObjLike : Json → Bool
  | .arr _ => true
  | .obj _ => true
  | _ => false

/-- Model of `SENSITIVE_FIELDS` from src/utils/sanitizer.ts. -/
def SENSITIVE_FIELDS : List String :=
  ["password", "token", "secret", "apikey", "api_key", "credential",
   "credentials", "authorization", "auth", "accesstoken", "access_token",
   "refreshtoken", "refresh_token", "privatekey", "private_key"]

/-- Model of `key.toLowerCase().replace(/[_-]/g, '')`: lowercase each character, then
drop every underscore and hyphen. -/
def normalizeKey (k : String) : String :=
  ⟨(k.data.map Char.toLower).filter (fun c => !(c == '_' || c == '-'))⟩

/-- The sanitizer's key test:
`SENSITIVE_FIELDS.some(f => keyLower.includes(f) || f.includes(keyLower))`. -/
def isSensitiveKey (k : String) : Bool :=
  let keyLower := normalizeKey k
  SENSITIVE_FIELDS.any (fun field =>
    strIncludes keyLower field || strIncludes field keyLower)

/-- The redaction marker. -/
def REDACTED : Json := .str "[REDACTED]"

/-- Boolean test that a value is exactly the redaction marker. -/
def isRedactedMarker : Json → Bool
  | .str s => s == "[REDACTED]"
  | _ => false

mutual
/-- Model of `sanitizePayload` from src/utils/sanitizer.ts: primitives pass through,
arrays map, objects redact sensitive keys and recurse into object values. -/
def sanitizePayload : Json → Json
  | .null => .null
  | .bool b => .bool b
  | .num n => .num n
  | .str s => .str s
  | .arr items => .arr (sanitizeItems items)
  | .obj fields => .obj (sanitizeFields fields)

/-- Model of `data.map(item => sanitizePayload(item))`. -/
def sanitizeItems : List Json → List Json
  | [] => []
  | v :: rest => sanitizePayload v :: sanitizeItems rest

/-- The `for (const [key, value] of Object.entries(data))` loop body. -/
def sanitizeFields : List (String × Json) → List (String × Json)
  | [] => []
  | (k, v) :: rest =>
    (k, if isSensitiveKey k then REDACTED
        else if isObjLike v then sanitizePayload v
        else v) :: sanitizeFields rest
end

mutual
/-- Checks that everywhere in a value, an object field whose normalized key
is a member of `SENSITIVE_FIELDS` holds exactly the redaction marker. -/
def noSensitive : Json → Bool
  | .arr items => noSensitiveList items
  | .obj fields => noSensitiveFields fields
  | _ => true

def noSensitiveList : List Json → Bool
  | [] => true
  | v :: rest => noSensitive v && noSensitiveList rest

def noSensitiveFields : List (String × Json) → Bool
  | [] => true
  | (k, v) :: rest =>
    (!(SENSITIVE_FIELDS.contains (normalizeKey k)) || isRedactedMarker v)
      && noSensitive v && noSensitiveFields rest
end

/-- Model of `CreateLogDto` from src/types/logs.ts as used by the logging pipeline.
Optional (possibly `undefined`) fields are `Option`s. -/
structure CreateLogDto where
  user_id : Int
  email : String
  action_type : String
  action_description : String
  module : Option String := none
  http_method : Option String := none
  endpoint_path : Option String := none
  request_payload : Option Json := none
  response_status : Option Int := none
  response_time_ms : Option Int := none
  ip_address : Option String := none
  user_agent : Option String := none
  geo_city : Option String := none
  geo_country : Option String := none
  before_state : Option Json := none
  after_state : Option Json := none

mutual
/-- The pass `removeCircularReferences` restricted to tree values: in a tree every
subobject is a fresh reference, so the `seen` set never fires and the pass
is a structural copy (the reference-graph version with an explicit heap is
modelled below for the termination claim). -/
def removeCircularTree : Json → Json
  | .null => .null
  | .bool b => .bool b
  | .num n => .num n
  | .str s => .str s
  | .arr items => .arr (remCircItems items)
  | .obj fields => .obj (remCircFields fields)

def remCircItems : List Json → List Json
  | [] => []
  | v :: rest => removeCircularTree v :: remCircItems rest

def remCircFields : List (String × Json) → List (String × Json)
  | [] => []
  | (k, v) :: rest => (k, removeCircularTree v) :: remCircFields rest
end

/-- Model of `cleaned.X ? sanitizePayload(cleaned.X) : undefined` for a payload slot. -/
def sanitizeOptPayload : Option Json → Option Json
  | none => none
  | some v => if jsTruthy v then some (sanitizePayload v) else none

/-- Model of `ActivityLogger.sanitizeLogData` (src/services/activity-logger code in
log-queue.ts sources): removes circular references, then sanitizes the three
payload slots. -/
def sanitizeLogData (d : CreateLogDto) : CreateLogDto :=
  let cleaned := { d with
    request_payload := d.request_payload.map removeCircularTree
    before_state := d.before_state.map removeCircularTree
    after_state := d.after_state.map removeCircularTree }
  { cleaned with
    request_payload := sanitizeOptPayload cleaned.request_payload
    before_state := sanitizeOptPayload cleaned.before_state
    after_state := sanitizeOptPayload cleaned.after_state }

/-- The check `noSensitive` lifted to an optional payload slot. -/
def noSensitiveOpt : Option Json → Bool
  | none => true
  | some v => noSensitive v

/-- Model of `ActivityLogger.isCriticalAction` from the activity-logger source. -/
def isCriticalAction (method path : String) : Bool :=
  if strIncludes path "/auth/" then true
  else if method == "DELETE" then true
  else if strIncludes path "/permissions" then true
  else if (method == "POST" || method == "PUT" || method == "PATCH")
      && strIncludes path "/users" then true
  else false

/-- An entry of the in-memory log queue (`QueueItem` in log-queue.ts). -/
structure QueueItem where
  logData : CreateLogDto
  retryCount : Nat
  enqueuedAt : Int

/-- Model of `LogQueue.MAX_RETRIES`. -/
def MAX_RETRIES : Nat := 3

/-- Model of `LogQueue.BATCH_SIZE`. -/
def BATCH_SIZE : Nat := 10

/-- Model of `LogQueue.enqueue`: push a fresh item (retryCount 0) to the tail. -/
def enqueue (now : Int) (d : CreateLogDto) (q : List QueueItem) : List QueueItem :=
  q ++ [{ logData := d, retryCount := 0, enqueuedAt := now }]

/-- The `for (const item of batch)` loop of `LogQueue.processQueue`, with the
write outcome abstracted by `ok`.  The first argument is the captured batch
snapshot, the second the live queue: success shifts the head; failure
increments the retry count and either drops (at `MAX_RETRIES`) or shifts and
re-pushes the item to the tail. -/
def processLoop (ok : CreateLogDto → Bool) :
    List QueueItem → List QueueItem → List QueueItem
  | [], q => q
  | item :: batchRest, q =>
    if ok item.logData then processLoop ok batchRest q.tail
    else
      let item' : QueueItem := { item with retryCount := item.retryCount + 1 }
      if MAX_RETRIES ≤ item'.retryCount then processLoop ok batchRest q.tail
      else processLoop ok batchRest (q.tail ++ [item'])

/-- One drain cycle of `LogQueue.processQueue`: slice a batch of at most
`BATCH_SIZE` items from the head, then run the loop over it. -/
def processQueue (ok : CreateLogDto → Bool) (q : List QueueItem) : List QueueItem :=
  processLoop ok (q.take BATCH_SIZE) q

/-- Per-item fate in a drain cycle: removed on success, removed when the
incremented retry count reaches `MAX_RETRIES`, otherwise kept with the
incremented count. -/
def retryStep (ok : CreateLogDto → Bool) (item : QueueItem) : Option QueueItem :=
  if ok item.logData then none
  else
    let item' : QueueItem := { item with retryCount := item.retryCount + 1 }
    if MAX_RETRIES ≤ item'.retryCount then none else some item'

/-- A concrete routine log entry, used by witnesses. -/
def dtoView : CreateLogDto :=
  { user_id := 1, email := "a@b", action_type := "view",
    action_description := "viewed" }

/-- A persisted audit row as the retention service sees it (only the
timestamp matters for the purge predicate). -/
structure LogRow where
  id : Nat
  created_at : Int

/-- Model of `LogCleanupService.RETENTION_DAYS`. -/
def RETENTION_DAYS : Nat := 365

/-- Model of `LogCleanupService.deleteOldLogs`, time measured in days: cutoff is
`now - retentionDays`; count rows with `created_at < cutoff`, return 0 and
leave the table alone when none match, otherwise delete exactly those rows
and return the count.  The service instantiates `retentionDays` with
`RETENTION_DAYS = 365`. -/
def deleteOldLogs (retentionDays : Nat) (now : Int) (logs : List LogRow) :
    Nat × List LogRow :=
  let cutoff : Int := now - retentionDays
  let deleteCount := (logs.filter (fun r => decide (r.created_at < cutoff))).length
  if deleteCount = 0 then (0, logs)
  else (deleteCount, logs.filter (fun r => !decide (r.created_at < cutoff)))

/-- A persisted `admin_user_logs` row as bound by the INSERT parameter list
(`created_at` is set by the database). -/
structure DbRow where
  user_id : Int
  email : String
  action_type : String
  action_description : String
  module : Option String
  http_method : Option String
  endpoint_path : Option String
  request_payload : Option String
  response_status : Option Int
  response_time_ms : Option Int
  ip_address : Option String
  user_agent : Option String
  geo_city : Option String
  geo_country : Option String
  before_state : Option String
  after_state : Option String

/-- JS `x || null` on a string-or-undefined slot (`""` is falsy). -/
def jsOrNullS : Option String → Option String
  | none => none
  | some s => if s == "" then none else some s

/-- JS `x || null` on a number-or-undefined slot (`0` is falsy). -/
def jsOrNullN : Option Int → Option Int
  | none => none
  | some n => if n == 0 then none else some n

/-- JS `x ? JSON.stringify(x) : null` on a payload slot; `JSON.stringify` is a
platform function, abstracted as a parameter. -/
def jsStringifyTruthy (stringify : Json → String) : Option Json → Option String
  | none => none
  | some v => if jsTruthy v then some (stringify v) else none

/-- Model of `LogQueue.writeLogToDatabase`'s INSERT parameter list built from a raw
`CreateLogDto`. -/
def writeLogRow (stringify : Json → String) (d : CreateLogDto) : DbRow :=
  { user_id := d.user_id
    email := d.email
    action_type := d.action_type
    action_description := d.action_description
    module := jsOrNullS d.module
    http_method := jsOrNullS d.http_method
    endpoint_path := jsOrNullS d.endpoint_path
    request_payload := jsStringifyTruthy stringify d.request_payload
    response_status := jsOrNullN d.response_status
    response_time_ms := jsOrNullN d.response_time_ms
    ip_address := jsOrNullS d.ip_address
    user_agent := jsOrNullS d.user_agent
    geo_city := jsOrNullS d.geo_city
    geo_country := jsOrNullS d.geo_country
    before_state := jsStringifyTruthy stringify d.before_state
    after_state := jsStringifyTruthy stringify d.after_state }

/-- Model of `ActivityLogger.logSync`'s INSERT parameter list: the same coercions,
written out again in the source, applied to the sanitized dto. -/
def logSyncRow (stringify : Json → String) (d : CreateLogDto) : DbRow :=
  let sanitized := sanitizeLogData d
  { user_id := sanitized.user_id
    email := sanitized.email
    action_type := sanitized.action_type
    action_description := sanitized.action_description
    module := jsOrNullS sanitized.module
    http_method := jsOrNullS sanitized.http_method
    endpoint_path := jsOrNullS sanitized.endpoint_path
    request_payload := jsStringifyTruthy stringify sanitized.request_payload
    response_status := jsOrNullN sanitized.response_status
    response_time_ms := jsOrNullN sanitized.response_time_ms
    ip_address := jsOrNullS sanitized.ip_address
    user_agent := jsOrNullS sanitized.user_agent
    geo_city := jsOrNullS sanitized.geo_city
    geo_country := jsOrNullS sanitized.geo_country
    before_state := jsStringifyTruthy stringify sanitized.before_state
    after_state := jsStringifyTruthy stringify sanitized.after_state }

/-- Model of `ActivityLogger.sanitizeLogData`'s try/catch boundary: an internal
sanitization failure (`inner` returning an error) is caught and the original
unredacted dto is returned. -/
def sanitizeLogDataCaught
    (inner : CreateLogDto → Except String CreateLogDto)
    (d : CreateLogDto) : CreateLogDto :=
  match inner d with
  | .ok s => s
  | .error _ => d

/-- Model of `ActivityLogger.logSync`: sanitize, attempt the durable write, and catch
any failure at the boundary (console diagnostic only), returning normally. -/
def logSync (dbWrite : CreateLogDto → Except String Unit)
    (inner : CreateLogDto → Except String CreateLogDto)
    (d : CreateLogDto) : Except String Unit :=
  match dbWrite (sanitizeLogDataCaught inner d) with
  | .ok _ => .ok ()
  | .error _ => .ok ()

/-- Model of `ActivityLogger.logAsync` composed with `LogQueue.enqueue`: sanitize and
push to the in-memory queue; the enclosing try/catch never lets an error
escape, and the push itself cannot fail. -/
def logAsync (inner : CreateLogDto → Except String CreateLogDto)
    (now : Int) (d : CreateLogDto) (q : List QueueItem) :
    Except String (List QueueItem) :=
  .ok (enqueue now (sanitizeLogDataCaught inner d) q)

/-- A `user_permissions` row. -/
structure PermRow where
  user_id : Int
  module : String
  access_level : String
  granted_by : Int
  granted_at : Int
deriving DecidableEq

/-- A registry user (only the fields the permission paths consult). -/
structure RegUser where
  id : Int
  email : String
deriving DecidableEq

/-- Registry persistent state: `admin_users` and `user_permissions`. -/
structure RegState where
  users : List RegUser
  permissions : List PermRow
deriving DecidableEq

/-- Model of `getUserById`: first user row with the given id. -/
def getUserById (users : List RegUser) (id : Int) : Option RegUser :=
  users.find? (fun u => u.id == id)

/-- The unique-row lookup `SELECT * FROM user_permissions WHERE user_id = $1
AND module = $2`. -/
def findPermission (perms : List PermRow) (uid : Int) (m : String) :
    Option PermRow :=
  perms.find? (fun r => r.user_id == uid && r.module == m)

/-- The required level as typed in `hasModuleAccess`'s signature. -/
inductive AccessLevel where
  | read | write | admin
deriving DecidableEq

/-- The level's string, as stored and compared. -/
def levelName : AccessLevel → String
  | .read => "read"
  | .write => "write"
  | .admin => "admin"

/-- Model of `const accessLevels = ['read', 'write', 'admin']`. -/
def accessLevels : List String := ["read", "write", "admin"]

/-- JS `Array.prototype.indexOf`: index of the first occurrence, `-1` when
absent. -/
def jsIndexOf : List String → String → Int
  | [], _ => -1
  | x :: xs, s =>
    if x == s then 0
    else
      let r := jsIndexOf xs s
      if r == -1 then -1 else r + 1

/-- Model of `UserRegistryService.hasModuleAccess`: absent row ⇒ false; otherwise
compare list-index ranks of the stored and required levels. -/
def hasModuleAccess (perms : List PermRow) (uid : Int) (m : String)
    (requiredLevel : AccessLevel) : Bool :=
  match findPermission perms uid m with
  | none => false
  | some p =>
    let userLevel := jsIndexOf accessLevels p.access_level
    let requiredLevelIndex := jsIndexOf accessLevels (levelName requiredLevel)
    decide (requiredLevelIndex ≤ userLevel)

/-- Model of `UserRegistryService.setUserPermission`: guard that actor and target
exist (else throw), then upsert the (user, module) row.  The audit-log side
effect does not touch registry state and is not modelled here. -/
def setUserPermission (now : Int) (st : RegState) (userId : Int) (m : String)
    (accessLevel : AccessLevel) (grantedBy : Int) : Except String RegState :=
  match getUserById st.users grantedBy with
  | none => .error "Actor user not found"
  | some _ =>
    match getUserById st.users userId with
    | none => .error "Target user not found"
    | some _ =>
      let isMatch := fun (r : PermRow) => r.user_id == userId && r.module == m
      let newPerms :=
        if st.permissions.any isMatch then
          st.permissions.map (fun r =>
            if isMatch r then
              { r with access_level := levelName accessLevel,
                       granted_by := grantedBy, granted_at := now }
            else r)
        else
          st.permissions ++
            [{ user_id := userId, module := m,
               access_level := levelName accessLevel,
               granted_by := grantedBy, granted_at := now }]
      .ok { st with permissions := newPerms }

/-- Model of `UserRegistryService.removeUserPermission`: guard that actor and target
exist (else throw), then `DELETE FROM user_permissions WHERE user_id = $1 AND
module = $2`. -/
def removeUserPermission (st : RegState) (userId : Int) (m : String)
    (removedBy : Int) : Except String RegState :=
  match getUserById st.users removedBy with
  | none => .error "Actor user not found"
  | some _ =>
    match getUserById st.users userId with
    | none => .error "Target user not found"
    | some _ =>
      .ok { st with permissions :=
        st.permissions.filter (fun r => !(r.user_id == userId && r.module == m)) }

/-- A concrete two-user registry, a granted row, and the states a
grant-then-revoke round trip passes through; used by the C8 witness. -/
def regUsersW : List RegUser :=
  [{ id := 1, email := "u@x" }, { id := 2, email := "a@x" }]

def permRowW : PermRow :=
  { user_id := 1, module := "finance", access_level := "write",
    granted_by := 2, granted_at := 5 }

def regStW : RegState := { users := regUsersW, permissions := [] }

def regStW1 : RegState := { users := regUsersW, permissions := [permRowW] }

/-- A JS primitive (never carries references). -/
inductive Prim where
  | null
  | bool (b : Bool)
  | num (n : Int)
  | str (s : String)
deriving DecidableEq

/-- A JS value as seen by `removeCircularReferences`: a primitive, or a
reference to a heap object (identity matters for the `seen` WeakSet, so
objects live behind explicit addresses). -/
inductive JsRef where
  | prim (p : Prim)
  | ref (a : Nat)
deriving DecidableEq

/-- A heap object: an array of values or a plain object. -/
inductive HNode where
  | arr (items : List JsRef)
  | obj (fields : List (String × JsRef))
deriving DecidableEq

/-- Output of the pass: a plain tree (cycles have been cut). -/
inductive OVal where
  | prim (p : Prim)
  | arr (items : List OVal)
  | obj (fields : List (String × OVal))

/-- The cycle marker `'[Circular Reference]'`. -/
def CIRCULAR : OVal := .prim (.str "[Circular Reference]")

mutual
/-- The `detect` closure of `removeCircularReferences`, over a heap `H` with
the mutated `seen` WeakSet threaded through in traversal order.  `fuel` is a
modelling artifact: it decreases only when dereferencing an address not yet
in `seen`, and the termination theorem shows `H.length + 1` fuel always
suffices, which is exactly the claim that the JS recursion terminates. -/
def detect (H : List HNode) : Nat → JsRef → Finset Nat → Option (OVal × Finset Nat)
  | _, .prim p, seen => some (.prim p, seen)
  | 0, .ref _, _ => none
  | fuel + 1, .ref a, seen =>
    if a ∈ seen then some (CIRCULAR, seen)
    else detectNode H fuel (H.getD a (.obj [])) (insert a seen)
termination_by fuel v _ => (fuel, sizeOf v)

/-- Traversal of a dereferenced object. -/
def detectNode (H : List HNode) : Nat → HNode → Finset Nat → Option (OVal × Finset Nat)
  | fuel, .arr items, seen =>
    match detectList H fuel items seen with
    | none => none
    | some (os, seen') => some (.arr os, seen')
  | fuel, .obj fields, seen =>
    match detectFields H fuel fields seen with
    | none => none
    | some (fs, seen') => some (.obj fs, seen')
termination_by fuel n _ => (fuel, sizeOf n)

/-- Model of `obj.map(item => detect(item))` with the `seen` state threaded. -/
def detectList (H : List HNode) : Nat → List JsRef → Finset Nat → Option (List OVal × Finset Nat)
  | _, [], seen => some ([], seen)
  | fuel, v :: rest, seen =>
    match detect H fuel v seen with
    | none => none
    | some (o, seen1) =>
      match detectList H fuel rest seen1 with
      | none => none
      | some (os, seen2) => some (o :: os, seen2)
termination_by fuel l _ => (fuel, sizeOf l)

/-- The `for (const [key, value] of Object.entries(obj))` loop with the
`seen` state threaded. -/
def detectFields (H : List HNode) : Nat → List (String × JsRef) → Finset Nat → Option (List (String × OVal) × Finset Nat)
  | _, [], seen => some ([], seen)
  | fuel, (k, v) :: rest, seen =>
    match detect H fuel v seen with
    | none => none
    | some (o, seen1) =>
      match detectFields H fuel rest seen1 with
      | none => none
      | some (fs, seen2) => some ((k, o) :: fs, seen2)
termination_by fuel l _ => (fuel, sizeOf l)
end

/-- Top level `removeCircularReferences`: run `detect` on the root with an empty
`seen` set and enough fuel for every heap address. -/
def removeCircularReferences (H : List HNode) (v : JsRef) : Option (OVal × Finset Nat) :=
  detect H (H.length + 1) v ∅

/-- Every address a value can mention is below `n`. -/
def refBelow (n : Nat) : JsRef → Bool
  | .prim _ => true
  | .ref a => decide (a < n)

/-- Every address a node can mention is below `n`. -/
def nodeOk (n : Nat) : HNode → Bool
  | .arr items => items.all (refBelow n)
  | .obj fields => fields.all (fun kv => refBelow n kv.2)

/-- The heap is closed: every node only mentions addresses inside the heap. -/
def heapClosed (H : List HNode) : Bool := H.all (nodeOk H.length)

theorem isPrefixL_refl : ∀ l : List Char, isPrefixL l l = true
  | [] => rfl
  | a :: as => by simp [isPrefixL, isPrefixL_refl as]

theorem infixOf_refl (l : List Char) : infixOf l l = true := by
  cases l with
  | nil => rfl
  | cons c rest => simp [infixOf, isPrefixL_refl]

theorem strIncludes_refl (s : String) : strIncludes s s = true :=
  infixOf_refl s.data

/-- A key whose normalized form is a vocabulary member passes the code's
(substring-based) sensitivity test. -/
theorem isSensitiveKey_of_mem (k : String)
    (h : SENSITIVE_FIELDS.contains (normalizeKey k) = true) :
    isSensitiveKey k = true := by
  have hmem : normalizeKey k ∈ SENSITIVE_FIELDS := by
    simpa using h
  unfold isSensitiveKey
  rw [List.any_eq_true]
  exact ⟨normalizeKey k, hmem, by simp [strIncludes_refl]⟩

theorem noSensitive_scalar (v : Json) (h : isObjLike v = false) :
    noSensitive v = true := by
  cases v <;> simp_all [isObjLike, noSensitive]

theorem noSensitive_redacted : noSensitive REDACTED = true := rfl

theorem noSensitive_str (s : String) : noSensitive (.str s) = true := rfl

mutual
theorem noSensitive_sanitizePayload : ∀ v, noSensitive (sanitizePayload v) = true
  | .null => rfl
  | .bool _ => rfl
  | .num _ => rfl
  | .str _ => rfl
  | .arr items => by
    simp [sanitizePayload, noSensitive, noSensitiveList_sanitizeItems items]
  | .obj fields => by
    simp [sanitizePayload, noSensitive, noSensitiveFields_sanitizeFields fields]

theorem noSensitiveList_sanitizeItems : ∀ l, noSensitiveList (sanitizeItems l) = true
  | [] => rfl
  | v :: rest => by
    simp [sanitizeItems, noSensitiveList, noSensitive_sanitizePayload v,
      noSensitiveList_sanitizeItems rest]

theorem noSensitiveFields_sanitizeFields :
    ∀ fs, noSensitiveFields (sanitizeFields fs) = true
  | [] => rfl
  | (k, v) :: rest => by
    by_cases hk : isSensitiveKey k = true
    · simp [sanitizeFields, noSensitiveFields, hk, noSensitive_str,
        isRedactedMarker, REDACTED, noSensitiveFields_sanitizeFields rest]
    · have hnotmem : normalizeKey k ∉ SENSITIVE_FIELDS := by
        intro hc
        exact hk (isSensitiveKey_of_mem k (by simpa using hc))
      cases hv : isObjLike v with
      | true =>
        simp [sanitizeFields, noSensitiveFields, hk, hv, hnotmem,
          noSensitive_sanitizePayload v, noSensitiveFields_sanitizeFields rest]
      | false =>
        simp [sanitizeFields, noSensitiveFields, hk, hv, hnotmem,
          noSensitive_scalar v hv, noSensitiveFields_sanitizeFields rest]
end

mutual
theorem removeCircularTree_id : ∀ v, removeCircularTree v = v
  | .null => rfl
  | .bool _ => rfl
  | .num _ => rfl
  | .str _ => rfl
  | .arr items => by simp [removeCircularTree, remCircItems_id items]
  | .obj fields => by simp [removeCircularTree, remCircFields_id fields]

theorem remCircItems_id : ∀ l, remCircItems l = l
  | [] => rfl
  | v :: rest => by
    simp [remCircItems, removeCircularTree_id v, remCircItems_id rest]

theorem remCircFields_id : ∀ fs, remCircFields fs = fs
  | [] => rfl
  | (k, v) :: rest => by
    simp [remCircFields, removeCircularTree_id v, remCircFields_id rest]
end

theorem noSensitiveOpt_sanitizeOptPayload (p : Option Json) :
    noSensitiveOpt (sanitizeOptPayload p) = true := by
  cases p with
  | none => rfl
  | some v =>
    by_cases h : jsTruthy v = true <;>
      simp [sanitizeOptPayload, h, noSensitiveOpt, noSensitive_sanitizePayload v]

/-- C2: for every value, every key at any nesting depth (including keys of
maps inside sequences) whose normalized form is in the sensitive-field
vocabulary has the fixed marker `[REDACTED]` as its value in the sanitizer's
output; consequently, the `request_payload`, `before_state` and `after_state`
slots produced by `sanitizeLogData` never hold a value under a sensitive key. -/
theorem C2_sanitizer_redacts_sensitive_keys_at_any_depth :
    (∀ v, noSensitive (sanitizePayload v) = true) ∧
    (∀ d : CreateLogDto,
      noSensitiveOpt (sanitizeLogData d).request_payload = true ∧
      noSensitiveOpt (sanitizeLogData d).before_state = true ∧
      noSensitiveOpt (sanitizeLogData d).after_state = true) := by
  refine ⟨noSensitive_sanitizePayload, fun d => ?_⟩
  refine ⟨?_, ?_, ?_⟩ <;>
    simp [sanitizeLogData, noSensitiveOpt_sanitizeOptPayload]

/-- C9 as stated is false: the code redacts on a bidirectional substring
test, not on vocabulary membership.  The key `"pass"` normalizes to
`"pass"`, which is not a member of `SENSITIVE_FIELDS`, yet its value is
redacted (because `'password'.includes('pass')`). -/
theorem C9_counterexample_pass_key_redacted :
    sanitizePayload (.obj [("pass", .str "x")]) = .obj [("pass", REDACTED)] ∧
    normalizeKey "pass" ∉ SENSITIVE_FIELDS := by
  refine ⟨?_, by decide⟩
  rfl

/-- C9 (amended): for each key in a map, redaction happens exactly when the
normalized key and some vocabulary entry are in a substring relation in either
direction (the normalized key contains the entry, or the entry contains the
normalized key); a key with no such relation is not redacted — its value is
recursed into when it is an object/array and passed through unchanged when it
is a scalar. -/
theorem C9_redaction_iff_substring_match :
    ∀ (k : String) (v : Json) (rest : List (String × Json)),
      ((∃ f ∈ SENSITIVE_FIELDS, strIncludes (normalizeKey k) f = true ∨
          strIncludes f (normalizeKey k) = true) →
        sanitizePayload (.obj ((k, v) :: rest)) =
          .obj ((k, REDACTED) :: sanitizeFields rest)) ∧
      ((¬ ∃ f ∈ SENSITIVE_FIELDS, strIncludes (normalizeKey k) f = true ∨
          strIncludes f (normalizeKey k) = true) →
        sanitizePayload (.obj ((k, v) :: rest)) =
          .obj ((k, if isObjLike v then sanitizePayload v else v) ::
            sanitizeFields rest)) := by
  intro k v rest
  have hiff : isSensitiveKey k = true ↔
      ∃ f ∈ SENSITIVE_FIELDS, strIncludes (normalizeKey k) f = true ∨
        strIncludes f (normalizeKey k) = true := by
    unfold isSensitiveKey
    rw [List.any_eq_true]
    simp
  constructor
  · intro h
    have hk := hiff.mpr h
    simp [sanitizePayload, sanitizeFields, hk]
  · intro h
    have hk : isSensitiveKey k = false := by
      cases hcase : isSensitiveKey k with
      | false => rfl
      | true => exact absurd (hiff.mp hcase) h
    simp [sanitizePayload, sanitizeFields, hk]

/-- Witness for the amended C9 at concrete inputs: `password` is redacted and
`name` is passed through. -/
theorem C9_redaction_iff_substring_match_witness :
    sanitizePayload (.obj [("password", .str "x")]) =
      .obj [("password", REDACTED)] ∧
    sanitizePayload (.obj [("name", .str "x")]) = .obj [("name", .str "x")] := by
  constructor
  · have h := (C9_redaction_iff_substring_match "password" (.str "x") []).1
      ⟨"password", by decide, Or.inl (by decide)⟩
    simpa [sanitizeFields] using h
  · have h := (C9_redaction_iff_substring_match "name" (.str "x") []).2
      (by decide)
    simpa [sanitizeFields, isObjLike] using h

/-- C4: `isCriticalAction` is true exactly when the path contains `/auth/`,
or the method is DELETE, or the path contains `/permissions`, or the method is
POST/PUT/PATCH and the path contains `/users`; in particular DELETE is always
critical, POST on a permissions path is critical, and GET on a plain users
path is not. -/
theorem C4_isCriticalAction_characterization :
    ∀ (method path : String),
      (isCriticalAction method path =
        (strIncludes path "/auth/" || method == "DELETE" ||
         strIncludes path "/permissions" ||
         ((method == "POST" || method == "PUT" || method == "PATCH") &&
           strIncludes path "/users"))) ∧
      isCriticalAction "DELETE" path = true ∧
      (strIncludes path "/permissions" = true →
        isCriticalAction "POST" path = true) ∧
      (strIncludes path "/users" = true →
        strIncludes path "/auth/" = false →
        strIncludes path "/permissions" = false →
        isCriticalAction "GET" path = false) := by
  intro method path
  refine ⟨?_, ?_, ?_, ?_⟩
  · unfold isCriticalAction
    cases h1 : strIncludes path "/auth/" <;>
      cases h2 : method == "DELETE" <;>
        cases h3 : strIncludes path "/permissions" <;>
          cases h4 : (method == "POST" || method == "PUT" || method == "PATCH")
              && strIncludes path "/users" <;>
            simp [h1, h2, h3, h4]
  · cases h1 : strIncludes path "/auth/" <;> simp [isCriticalAction, h1]
  · intro h3
    cases h1 : strIncludes path "/auth/" <;> simp [isCriticalAction, h1, h3]
  · intro hu ha hp
    simp [isCriticalAction, hu, ha, hp]

/-- Witness for C4's conditional conjuncts at concrete inputs. -/
theorem C4_isCriticalAction_witness :
    isCriticalAction "POST" "/api/admin/users/5/permissions" = true ∧
    isCriticalAction "GET" "/api/admin/users" = false := by
  constructor
  · exact (C4_isCriticalAction_characterization "POST"
      "/api/admin/users/5/permissions").2.2.1 (by decide)
  · exact (C4_isCriticalAction_characterization "GET"
      "/api/admin/users").2.2.2 (by decide) (by decide) (by decide)

theorem processLoop_split (ok : CreateLogDto → Bool) :
    ∀ (batch rest : List QueueItem),
      processLoop ok batch (batch ++ rest) = rest ++ batch.filterMap (retryStep ok)
  | [], rest => by simp [processLoop]
  | item :: bs, rest => by
    by_cases hok : ok item.logData = true
    · simp [processLoop, hok, retryStep, processLoop_split ok bs rest]
    · by_cases hmax : MAX_RETRIES ≤ item.retryCount + 1
      · simp [processLoop, hok, hmax, retryStep, processLoop_split ok bs rest]
      · have ih := processLoop_split ok bs
          (rest ++ [{ item with retryCount := item.retryCount + 1 }])
        simp only [processLoop, hok, hmax, if_neg, if_pos, Bool.false_eq_true,
          ite_false, List.tail_cons, List.cons_append, List.append_assoc] at ih ⊢
        rw [ih]
        simp [retryStep, hok, hmax]

/-- C5: in one drain cycle, the entries behind the batch are untouched, and
each batch entry is removed on success, re-queued at the tail with an
incremented retry count while that count stays below `MAX_RETRIES` (3), and
dropped once it reaches 3 — so a failing entry never stays in the queue past
its third failure and never blocks the entries behind it. -/
theorem C5_processQueue_retry_policy :
    ∀ (ok : CreateLogDto → Bool) (q : List QueueItem),
      processQueue ok q =
        q.drop BATCH_SIZE ++ (q.take BATCH_SIZE).filterMap (retryStep ok) ∧
      (∀ item, ok item.logData = true → retryStep ok item = none) ∧
      (∀ item, ok item.logData = false → item.retryCount + 1 < MAX_RETRIES →
        retryStep ok item =
          some { item with retryCount := item.retryCount + 1 }) ∧
      (∀ item, ok item.logData = false → MAX_RETRIES ≤ item.retryCount + 1 →
        retryStep ok item = none) := by
  intro ok q
  refine ⟨?_, ?_, ?_, ?_⟩
  · have h := processLoop_split ok (q.take BATCH_SIZE) (q.drop BATCH_SIZE)
    rw [List.take_append_drop] at h
    exact h
  · intro item h
    simp [retryStep, h]
  · intro item h hlt
    simp [retryStep, h, Nat.not_le.mpr hlt]
  · intro item h hge
    simp [retryStep, h, hge]

/-- Witness for C5's conditional conjuncts: a successful item is removed, a
first failure is kept with count 1, a third failure (count 2 → 3) is dropped. -/
theorem C5_processQueue_retry_policy_witness :
    retryStep (fun _ => true)
      { logData := dtoView, retryCount := 0, enqueuedAt := 0 } = none ∧
    retryStep (fun _ => false)
      { logData := dtoView, retryCount := 0, enqueuedAt := 0 } =
      some { logData := dtoView, retryCount := 1, enqueuedAt := 0 } ∧
    retryStep (fun _ => false)
      { logData := dtoView, retryCount := 2, enqueuedAt := 0 } = none := by
  refine ⟨(C5_processQueue_retry_policy (fun _ => true) []).2.1 _ rfl, ?_, ?_⟩
  · exact (C5_processQueue_retry_policy (fun _ => false) []).2.2.1 _ rfl
      (by decide)
  · exact (C5_processQueue_retry_policy (fun _ => false) []).2.2.2 _ rfl
      (by decide)

theorem keepPred_eq (c : Int) (r : LogRow) :
    (!decide (r.created_at < c)) = decide (c ≤ r.created_at) := by
  rw [← decide_not]
  exact decide_eq_decide.mpr Int.not_lt

/-- C7: the purge removes exactly the rows older than `now - h`, leaves every
younger row untouched, returns the number removed, and an immediate second
run removes zero rows. -/
theorem C7_deleteOldLogs_exact_and_idempotent :
    ∀ (h : Nat) (now : Int) (logs : List LogRow),
      (deleteOldLogs h now logs).2 =
        logs.filter (fun r => decide (now - (h : Int) ≤ r.created_at)) ∧
      (deleteOldLogs h now logs).1 =
        (logs.filter (fun r => decide (r.created_at < now - (h : Int)))).length ∧
      deleteOldLogs h now (deleteOldLogs h now logs).2 =
        (0, (deleteOldLogs h now logs).2) := by
  intro h now logs
  set c : Int := now - (h : Int) with hc
  by_cases h0 : (logs.filter (fun r => decide (r.created_at < c))).length = 0
  · have hempty : logs.filter (fun r => decide (r.created_at < c)) = [] :=
      List.length_eq_zero.mp h0
    have hall : ∀ r ∈ logs, ¬ r.created_at < c := by
      intro r hr hlt
      have hmem : r ∈ logs.filter (fun r => decide (r.created_at < c)) :=
        List.mem_filter.mpr ⟨hr, by simpa using hlt⟩
      rw [hempty] at hmem
      exact absurd hmem (List.not_mem_nil r)
    have hkeep : logs.filter (fun r => decide (c ≤ r.created_at)) = logs :=
      List.filter_eq_self.mpr
        (fun r hr => by simpa using Int.not_lt.mp (hall r hr))
    refine ⟨?_, ?_, ?_⟩ <;> simp [deleteOldLogs, ← hc, h0, hkeep]
  · have hres : deleteOldLogs h now logs =
        ((logs.filter (fun r => decide (r.created_at < c))).length,
          logs.filter (fun r => !decide (r.created_at < c))) := by
      simp [deleteOldLogs, ← hc, h0]
    have hkeepc : logs.filter (fun r => !decide (r.created_at < c)) =
        logs.filter (fun r => decide (c ≤ r.created_at)) :=
      List.filter_congr (fun r _ => keepPred_eq c r)
    refine ⟨by rw [hres, hkeepc], by rw [hres], ?_⟩
    have hnone : (logs.filter (fun r => !decide (r.created_at < c))).filter
        (fun r => decide (r.created_at < c)) = [] := by
      rw [List.filter_eq_nil_iff]
      intro r hr
      have := (List.mem_filter.mp hr).2
      simp at this
      simpa using Int.not_lt.mpr this
    rw [hres]
    simp [deleteOldLogs, ← hc, hnone]

/-- C10: both durable write paths coerce every optional field with a
falsy-to-null check before persistence: a response status or response time of
0 and an empty-string module, method, path, ip, user agent or geo field are
stored as NULL; the payload slots are JSON-serialized only when truthy and
stored as NULL otherwise; the synchronous path applies the identical
coercions to the sanitized dto. -/
theorem C10_write_paths_coerce_falsy_to_null :
    ∀ (stringify : Json → String) (d : CreateLogDto),
      (d.response_status = some 0 →
        (writeLogRow stringify d).response_status = none) ∧
      (d.response_time_ms = some 0 →
        (writeLogRow stringify d).response_time_ms = none) ∧
      (d.module = some "" → (writeLogRow stringify d).module = none) ∧
      (d.http_method = some "" → (writeLogRow stringify d).http_method = none) ∧
      (d.endpoint_path = some "" →
        (writeLogRow stringify d).endpoint_path = none) ∧
      (d.ip_address = some "" → (writeLogRow stringify d).ip_address = none) ∧
      (d.user_agent = some "" → (writeLogRow stringify d).user_agent = none) ∧
      (d.geo_city = some "" → (writeLogRow stringify d).geo_city = none) ∧
      (d.geo_country = some "" → (writeLogRow stringify d).geo_country = none) ∧
      (∀ v, d.request_payload = some v → jsTruthy v = true →
        (writeLogRow stringify d).request_payload = some (stringify v)) ∧
      (∀ v, d.request_payload = some v → jsTruthy v = false →
        (writeLogRow stringify d).request_payload = none) ∧
      (d.request_payload = none →
        (writeLogRow stringify d).request_payload = none) ∧
      (∀ v, d.before_state = some v → jsTruthy v = false →
        (writeLogRow stringify d).before_state = none) ∧
      (∀ v, d.after_state = some v → jsTruthy v = false →
        (writeLogRow stringify d).after_state = none) ∧
      logSyncRow stringify d = writeLogRow stringify (sanitizeLogData d) := by
  intro stringify d
  refine ⟨?_, ?_, ?_, ?_, ?_, ?_, ?_, ?_, ?_, ?_, ?_, ?_, ?_, ?_, ?_⟩ <;>
    first
      | (intro h; simp [writeLogRow, jsOrNullN, jsOrNullS, jsStringifyTruthy, h])
      | (intro v hv ht;
          simp [writeLogRow, jsStringifyTruthy, hv, ht])
      | rfl

/-- Witness for C10 at a concrete dto whose optional fields are all falsy. -/
theorem C10_write_paths_coerce_falsy_to_null_witness :
    (writeLogRow (fun _ => "J")
      { user_id := 1, email := "a@b", action_type := "view",
        action_description := "d", module := some "",
        response_status := some 0,
        request_payload := some (.obj []) }).response_status = none ∧
    (writeLogRow (fun _ => "J")
      { user_id := 1, email := "a@b", action_type := "view",
        action_description := "d", module := some "",
        response_status := some 0,
        request_payload := some (.obj []) }).module = none ∧
    (writeLogRow (fun _ => "J")
      { user_id := 1, email := "a@b", action_type := "view",
        action_description := "d", module := some "",
        response_status := some 0,
        request_payload := some (.obj []) }).request_payload = some "J" := by
  refine ⟨(C10_write_paths_coerce_falsy_to_null (fun _ => "J") _).1 rfl,
    (C10_write_paths_coerce_falsy_to_null (fun _ => "J") _).2.2.1 rfl,
    (C10_write_paths_coerce_falsy_to_null (fun _ => "J") _).2.2.2.2.2.2.2.2.2.1
      (.obj []) rfl rfl⟩

/-- C6: the request-path audit operations return normally for every input and
every storage-failure outcome — `logSync` yields `ok` whether the durable
write succeeds or fails, `logAsync` always yields `ok` (so neither can alter
the primary request's outcome), and when sanitization fails internally the
original unredacted dto is passed on instead of an error. -/
theorem C6_audit_pipeline_never_raises :
    ∀ (dbWrite : CreateLogDto → Except String Unit)
      (inner : CreateLogDto → Except String CreateLogDto)
      (now : Int) (d : CreateLogDto) (q : List QueueItem),
      logSync dbWrite inner d = .ok () ∧
      (∃ q', logAsync inner now d q = .ok q') ∧
      (∀ e, inner d = .error e → sanitizeLogDataCaught inner d = d) := by
  intro dbWrite inner now d q
  refine ⟨?_, ⟨_, rfl⟩, ?_⟩
  · unfold logSync
    cases dbWrite (sanitizeLogDataCaught inner d) <;> rfl
  · intro e he
    unfold sanitizeLogDataCaught
    rw [he]

/-- Witness for C6: a dbWrite that always fails still yields `ok`, and a
failing sanitizer hands back the original dto. -/
theorem C6_audit_pipeline_never_raises_witness :
    logSync (fun _ => .error "db down") (fun s => .ok s) dtoView = .ok () ∧
    sanitizeLogDataCaught (fun _ => .error "boom") dtoView = dtoView := by
  refine ⟨(C6_audit_pipeline_never_raises (fun _ => .error "db down")
    (fun s => .ok s) 0 dtoView []).1, ?_⟩
  exact (C6_audit_pipeline_never_raises (fun _ => .error "db down")
    (fun _ => .error "boom") 0 dtoView []).2.2 "boom" rfl

theorem findPermission_some (perms : List PermRow) (uid : Int) (m : String)
    (p : PermRow) (hf : findPermission perms uid m = some p) :
    p ∈ perms ∧ p.user_id = uid ∧ p.module = m := by
  have hmem := List.mem_of_find?_eq_some hf
  have hpred := List.find?_some hf
  simp at hpred
  exact ⟨hmem, hpred.1, hpred.2⟩

theorem findPermission_none (perms : List PermRow) (uid : Int) (m : String)
    (hf : findPermission perms uid m = none) :
    ∀ r ∈ perms, ¬(r.user_id = uid ∧ r.module = m) := by
  intro r hr hcontra
  have hp := List.find?_eq_none.mp hf r hr
  simp [hcontra.1, hcontra.2] at hp

theorem jsIndexOf_accessLevels (s : String) :
    jsIndexOf accessLevels s =
      if s = "read" then 0
      else if s = "write" then 1
      else if s = "admin" then 2
      else -1 := by
  by_cases h1 : s = "read"
  · subst h1; decide
  · by_cases h2 : s = "write"
    · subst h2; decide
    · by_cases h3 : s = "admin"
      · subst h3; decide
      · have e1 : (("read" : String) == s) = false := by
          simp [beq_iff_eq]; exact fun h => h1 h.symm
        have e2 : (("write" : String) == s) = false := by
          simp [beq_iff_eq]; exact fun h => h2 h.symm
        have e3 : (("admin" : String) == s) = false := by
          simp [beq_iff_eq]; exact fun h => h3 h.symm
        simp [jsIndexOf, accessLevels, e1, e2, e3, h1, h2, h3]

/-- C1: under the unique-row invariant for (actor, module), `hasModuleAccess`
with required level read/write/admin holds exactly when a row exists with
stored level in {read,write,admin} / {write,admin} / {admin}; an absent row
and a stored level outside the scale both fail closed for every required
level. -/
theorem C1_hasModuleAccess_iff_levels :
    ∀ (perms : List PermRow) (uid : Int) (m : String),
      (∀ r1 ∈ perms, ∀ r2 ∈ perms,
        r1.user_id = uid → r1.module = m → r2.user_id = uid → r2.module = m →
        r1 = r2) →
      ((hasModuleAccess perms uid m .read = true ↔
         ∃ r ∈ perms, r.user_id = uid ∧ r.module = m ∧
           (r.access_level = "read" ∨ r.access_level = "write" ∨
            r.access_level = "admin")) ∧
       (hasModuleAccess perms uid m .write = true ↔
         ∃ r ∈ perms, r.user_id = uid ∧ r.module = m ∧
           (r.access_level = "write" ∨ r.access_level = "admin")) ∧
       (hasModuleAccess perms uid m .admin = true ↔
         ∃ r ∈ perms, r.user_id = uid ∧ r.module = m ∧
           r.access_level = "admin") ∧
       ((¬ ∃ r ∈ perms, r.user_id = uid ∧ r.module = m) →
         ∀ req, hasModuleAccess perms uid m req = false) ∧
       (∀ r ∈ perms, r.user_id = uid → r.module = m →
         r.access_level ∉ accessLevels →
         ∀ req, hasModuleAccess perms uid m req = false)) := by
  intro perms uid m huniq
  cases hf : findPermission perms uid m with
  | none =>
    have habs := findPermission_none perms uid m hf
    have hfalse : ∀ req, hasModuleAccess perms uid m req = false := by
      intro req; simp [hasModuleAccess, hf]
    refine ⟨?_, ?_, ?_, fun _ => hfalse, fun _ _ _ _ _ => hfalse⟩ <;>
      (rw [hfalse]
       constructor
       · intro h; exact absurd h (by simp)
       · rintro ⟨r, hr, hru, hrm, _⟩; exact absurd ⟨hru, hrm⟩ (habs r hr))
  | some p =>
    obtain ⟨hpm, hpu, hpmod⟩ := findPermission_some perms uid m p hf
    have hkey : ∀ r ∈ perms, r.user_id = uid → r.module = m → r = p :=
      fun r hr hru hrm => huniq r hr p hpm hru hrm hpu hpmod
    have hacc : ∀ req, hasModuleAccess perms uid m req =
        decide (jsIndexOf accessLevels (levelName req) ≤
          jsIndexOf accessLevels p.access_level) := by
      intro req; simp [hasModuleAccess, hf]
    have hnotin : p.access_level ≠ "read" → p.access_level ≠ "write" →
        p.access_level ≠ "admin" →
        jsIndexOf accessLevels p.access_level = -1 := by
      intro h1 h2 h3
      rw [jsIndexOf_accessLevels, if_neg h1, if_neg h2, if_neg h3]
    refine ⟨?_, ?_, ?_, ?_, ?_⟩
    · constructor
      · intro h
        refine ⟨p, hpm, hpu, hpmod, ?_⟩
        by_contra hno
        push_neg at hno
        obtain ⟨h1, h2, h3⟩ := hno
        rw [hacc, hnotin h1 h2 h3] at h
        exact absurd (of_decide_eq_true h) (by decide)
      · rintro ⟨r, hr, hru, hrm, hdisj⟩
        have hrp := hkey r hr hru hrm
        subst hrp
        rw [hacc]
        apply decide_eq_true
        rcases hdisj with h | h | h <;>
          rw [jsIndexOf_accessLevels, h] <;> decide
    · constructor
      · intro h
        refine ⟨p, hpm, hpu, hpmod, ?_⟩
        by_cases h2 : p.access_level = "write"
        · exact Or.inl h2
        · by_cases h3 : p.access_level = "admin"
          · exact Or.inr h3
          · exfalso
            rw [hacc] at h
            have hle := of_decide_eq_true h
            by_cases h1 : p.access_level = "read"
            · rw [jsIndexOf_accessLevels, h1] at hle
              exact absurd hle (by decide)
            · rw [hnotin h1 h2 h3] at hle
              exact absurd hle (by decide)
      · rintro ⟨r, hr, hru, hrm, hdisj⟩
        have hrp := hkey r hr hru hrm
        subst hrp
        rw [hacc]
        apply decide_eq_true
        rcases hdisj with h | h <;>
          rw [jsIndexOf_accessLevels, h] <;> decide
    · constructor
      · intro h
        refine ⟨p, hpm, hpu, hpmod, ?_⟩
        by_cases h3 : p.access_level = "admin"
        · exact h3
        · exfalso
          rw [hacc] at h
          have hle := of_decide_eq_true h
          by_cases h1 : p.access_level = "read"
          · rw [jsIndexOf_accessLevels, h1] at hle
            exact absurd hle (by decide)
          · by_cases h2 : p.access_level = "write"
            · rw [jsIndexOf_accessLevels, h2] at hle
              exact absurd hle (by decide)
            · rw [hnotin h1 h2 h3] at hle
              exact absurd hle (by decide)
      · rintro ⟨r, hr, hru, hrm, h⟩
        have hrp := hkey r hr hru hrm
        subst hrp
        rw [hacc]
        apply decide_eq_true
        rw [jsIndexOf_accessLevels, h]
        decide
    · intro hnone
      exact absurd ⟨p, hpm, hpu, hpmod⟩ hnone
    · intro r hr hru hrm hnotlev req
      have hrp := hkey r hr hru hrm
      subst hrp
      have h1 : r.access_level ≠ "read" := by
        intro h; exact hnotlev (by simp [accessLevels, h])
      have h2 : r.access_level ≠ "write" := by
        intro h; exact hnotlev (by simp [accessLevels, h])
      have h3 : r.access_level ≠ "admin" := by
        intro h; exact hnotlev (by simp [accessLevels, h])
      rw [hacc, hnotin h1 h2 h3]
      cases req <;> decide

/-- Witness for C1 on a one-row table: write access holds, admin does not. -/
theorem C1_hasModuleAccess_iff_levels_witness :
    hasModuleAccess
      [{ user_id := 1, module := "finance", access_level := "write",
         granted_by := 2, granted_at := 0 }] 1 "finance" .write = true ∧
    hasModuleAccess
      [{ user_id := 1, module := "finance", access_level := "write",
         granted_by := 2, granted_at := 0 }] 1 "finance" .admin = false := by
  have h := C1_hasModuleAccess_iff_levels
    [{ user_id := 1, module := "finance", access_level := "write",
       granted_by := 2, granted_at := 0 }] 1 "finance" (by decide)
  constructor
  · exact h.2.1.mpr
      ⟨{ user_id := 1, module := "finance", access_level := "write",
         granted_by := 2, granted_at := 0 }, by simp, rfl, rfl, Or.inl rfl⟩
  · cases hv : hasModuleAccess
      [{ user_id := 1, module := "finance", access_level := "write",
         granted_by := 2, granted_at := 0 }] 1 "finance" .admin with
    | false => rfl
    | true => exact absurd (h.2.2.1.mp hv) (by decide)

/-- C8: after granting (actor, module, level) and then revoking
(actor, module), `hasModuleAccess` is false for every required level — the
round trip restores the no-access state for that pair. -/
theorem C8_grant_then_revoke_no_access :
    ∀ (now : Int) (st : RegState) (uid : Int) (m : String)
      (lvl : AccessLevel) (gb rb : Int) (st1 st2 : RegState),
      setUserPermission now st uid m lvl gb = .ok st1 →
      removeUserPermission st1 uid m rb = .ok st2 →
      ∀ req, hasModuleAccess st2.permissions uid m req = false := by
  intro now st uid m lvl gb rb st1 st2 hset hrem req
  unfold removeUserPermission at hrem
  cases hA : getUserById st1.users rb <;> rw [hA] at hrem
  · exact absurd hrem (by simp)
  · cases hB : getUserById st1.users uid <;> rw [hB] at hrem
    · exact absurd hrem (by simp)
    · simp only [Except.ok.injEq] at hrem
      have hperm : st2.permissions =
          st1.permissions.filter
            (fun r => !(r.user_id == uid && r.module == m)) := by
        rw [← hrem]
      have hfindnone : findPermission
          (st1.permissions.filter
            (fun r => !(r.user_id == uid && r.module == m))) uid m = none := by
        apply List.find?_eq_none.mpr
        intro r hr
        have hmem := List.mem_filter.mp hr
        intro hcontra
        rw [hcontra] at hmem
        exact absurd hmem.2 (by decide)
      simp only [hasModuleAccess]
      rw [hperm, hfindnone]

/-- Witness for C8 on a concrete two-user registry. -/
theorem C8_grant_then_revoke_no_access_witness :
    hasModuleAccess ([] : List PermRow) 1 "finance" .read = false := by
  exact C8_grant_then_revoke_no_access 5 regStW 1 "finance" .write 2 2
    regStW1 { users := regUsersW, permissions := [] } rfl rfl .read

theorem nodeOk_of_heapClosed (H : List HNode) (hH : heapClosed H = true)
    (a : Nat) (ha : a < H.length) :
    nodeOk H.length (H.getD a (.obj [])) = true := by
  have heq : H.getD a (.obj []) = H[a] := by
    simp [List.getD_eq_getElem?_getD, List.getElem?_eq_getElem ha]
  rw [heq]
  exact (List.all_eq_true.mp hH) _ (List.getElem_mem ha)

theorem detectList_suffices (H : List HNode) (fuel : Nat)
    (IH : ∀ v seen, refBelow H.length v = true →
      seen ⊆ Finset.range H.length → H.length - seen.card < fuel →
      ∃ o seen', detect H fuel v seen = some (o, seen') ∧ seen ⊆ seen' ∧
        seen' ⊆ Finset.range H.length) :
    ∀ (l : List JsRef) (seen : Finset Nat),
      l.all (refBelow H.length) = true →
      seen ⊆ Finset.range H.length → H.length - seen.card < fuel →
      ∃ os seen', detectList H fuel l seen = some (os, seen') ∧
        seen ⊆ seen' ∧ seen' ⊆ Finset.range H.length := by
  intro l
  induction l with
  | nil =>
    intro seen _ hseen _
    exact ⟨[], seen, by simp [detectList], Finset.Subset.refl _, hseen⟩
  | cons v rest ihrest =>
    intro seen hall hseen hfuel
    have hv : refBelow H.length v = true :=
      (List.all_eq_true.mp hall) v (by simp)
    have hrest : rest.all (refBelow H.length) = true := by
      rw [List.all_eq_true]
      intro x hx
      exact (List.all_eq_true.mp hall) x (by simp [hx])
    obtain ⟨o, seen1, heq1, hsub1, hrange1⟩ := IH v seen hv hseen hfuel
    have hc := Finset.card_le_card hsub1
    have hfuel1 : H.length - seen1.card < fuel := by omega
    obtain ⟨os, seen2, heq2, hsub2, hrange2⟩ :=
      ihrest seen1 hrest hrange1 hfuel1
    exact ⟨o :: os, seen2, by simp [detectList, heq1, heq2],
      Finset.Subset.trans hsub1 hsub2, hrange2⟩

theorem detectFields_suffices (H : List HNode) (fuel : Nat)
    (IH : ∀ v seen, refBelow H.length v = true →
      seen ⊆ Finset.range H.length → H.length - seen.card < fuel →
      ∃ o seen', detect H fuel v seen = some (o, seen') ∧ seen ⊆ seen' ∧
        seen' ⊆ Finset.range H.length) :
    ∀ (l : List (String × JsRef)) (seen : Finset Nat),
      l.all (fun kv => refBelow H.length kv.2) = true →
      seen ⊆ Finset.range H.length → H.length - seen.card < fuel →
      ∃ fs seen', detectFields H fuel l seen = some (fs, seen') ∧
        seen ⊆ seen' ∧ seen' ⊆ Finset.range H.length := by
  intro l
  induction l with
  | nil =>
    intro seen _ hseen _
    exact ⟨[], seen, by simp [detectFields], Finset.Subset.refl _, hseen⟩
  | cons kv rest ihrest =>
    intro seen hall hseen hfuel
    obtain ⟨k, v⟩ := kv
    have hv : refBelow H.length v = true :=
      (List.all_eq_true.mp hall) (k, v) (by simp)
    have hrest : rest.all (fun kv => refBelow H.length kv.2) = true := by
      rw [List.all_eq_true]
      intro x hx
      exact (List.all_eq_true.mp hall) x (by simp [hx])
    obtain ⟨o, seen1, heq1, hsub1, hrange1⟩ := IH v seen hv hseen hfuel
    have hc := Finset.card_le_card hsub1
    have hfuel1 : H.length - seen1.card < fuel := by omega
    obtain ⟨fs, seen2, heq2, hsub2, hrange2⟩ :=
      ihrest seen1 hrest hrange1 hfuel1
    exact ⟨(k, o) :: fs, seen2, by simp [detectFields, heq1, heq2],
      Finset.Subset.trans hsub1 hsub2, hrange2⟩

/-- On a closed heap, fuel exceeding the number of unseen addresses always
suffices: `detect` returns a result and only grows the `seen` set inside the
heap. -/
theorem detect_suffices (H : List HNode) (hH : heapClosed H = true) :
    ∀ (fuel : Nat) (v : JsRef) (seen : Finset Nat),
      refBelow H.length v = true → seen ⊆ Finset.range H.length →
      H.length - seen.card < fuel →
      ∃ o seen', detect H fuel v seen = some (o, seen') ∧ seen ⊆ seen' ∧
        seen' ⊆ Finset.range H.length := by
  intro fuel
  induction fuel with
  | zero =>
    intro v seen _ _ hfuel
    exact absurd hfuel (by omega)
  | succ fuel IH =>
    intro v seen hv hseen hfuel
    cases v with
    | prim p =>
      exact ⟨.prim p, seen, by simp [detect], Finset.Subset.refl _, hseen⟩
    | ref a =>
      by_cases hmem : a ∈ seen
      · exact ⟨CIRCULAR, seen, by simp [detect, hmem],
          Finset.Subset.refl _, hseen⟩
      · have ha : a < H.length := by simpa [refBelow] using hv
        have hins : insert a seen ⊆ Finset.range H.length := by
          intro x hx
          rcases Finset.mem_insert.mp hx with hx | hx
          · exact hx ▸ Finset.mem_range.mpr ha
          · exact hseen hx
        have hcard : (insert a seen).card = seen.card + 1 :=
          Finset.card_insert_of_not_mem hmem
        have hcardle : (insert a seen).card ≤ H.length := by
          have h1 := Finset.card_le_card hins
          simpa [Finset.card_range] using h1
        have hfuel2 : H.length - (insert a seen).card < fuel := by omega
        have hnode := nodeOk_of_heapClosed H hH a ha
        cases hn : H.getD a (.obj []) with
        | arr items =>
          have hitems : items.all (refBelow H.length) = true := by
            rw [hn] at hnode
            simpa [nodeOk] using hnode
          obtain ⟨os, seen', heq, hsub, hrange⟩ :=
            detectList_suffices H fuel IH items (insert a seen) hitems hins hfuel2
          refine ⟨.arr os, seen', ?_, ?_, hrange⟩
          · simp only [detect]
            rw [if_neg hmem, hn]
            simp [detectNode, heq]
          · exact Finset.Subset.trans (Finset.subset_insert a seen) hsub
        | obj fields =>
          have hfields : fields.all (fun kv => refBelow H.length kv.2) = true := by
            rw [hn] at hnode
            simpa [nodeOk] using hnode
          obtain ⟨fs, seen', heq, hsub, hrange⟩ :=
            detectFields_suffices H fuel IH fields (insert a seen) hfields hins hfuel2
          refine ⟨.obj fs, seen', ?_, ?_, hrange⟩
          · simp only [detect]
            rw [if_neg hmem, hn]
            simp [detectNode, heq]
          · exact Finset.Subset.trans (Finset.subset_insert a seen) hsub

/-- C3: on every closed heap — self-references and re-encountered references
included — the cycle-removal pass terminates (fuel `H.length + 1` always
returns a result), a reference already in the traversal's `seen` set yields
the fixed `[Circular Reference]` marker instead of recursion, and on the
concrete self-referential object `{ self: <itself> }` the pass returns the
object with the marker in place of the self-reference. -/
theorem C3_removeCircularReferences_terminates_and_marks :
    (∀ (H : List HNode) (v : JsRef),
      heapClosed H = true → refBelow H.length v = true →
      (removeCircularReferences H v).isSome = true) ∧
    (∀ (H : List HNode) (fuel a : Nat) (seen : Finset Nat),
      a ∈ seen →
      detect H (fuel + 1) (.ref a) seen = some (CIRCULAR, seen)) ∧
    removeCircularReferences [HNode.obj [("self", .ref 0)]] (.ref 0) =
      some (.obj [("self", CIRCULAR)], {0}) := by
  refine ⟨?_, ?_, ?_⟩
  · intro H v hH hv
    obtain ⟨o, seen', heq, -, -⟩ :=
      detect_suffices H hH (H.length + 1) v ∅ hv (by simp) (by simp)
    simp [removeCircularReferences, heq]
  · intro H fuel a seen hmem
    simp [detect, hmem]
  · simp only [removeCircularReferences]
    simp [detect, detectNode, detectFields, CIRCULAR]

/-- Witness for C3's conditional part on the concrete one-object heap whose
single object references itself. -/
theorem C3_removeCircularReferences_witness :
    heapClosed [HNode.obj [("self", .ref 0)]] = true ∧
    refBelow (List.length [HNode.obj [("self", .ref 0)]]) (.ref 0) = true ∧
    (removeCircularReferences [HNode.obj [("self", .ref 0)]]
      (.ref 0)).isSome = true := by
  refine ⟨rfl, rfl, ?_⟩
  exact C3_removeCircularReferences_terminates_and_marks.1
    [HNode.obj [("self", .ref 0)]] (.ref 0) rfl rfl
